import Mathlib

/-!
Shallow embedding of the interactive playback control loop of `nsfp`
(src/src/main.cc): the input decoder for raw terminal bytes, the playback
controller state, the per-iteration loop body, and the startup argument
check.  Engine behaviour (success of `start_track`, the `track_ended`
answer, the bytes available on stdin) is supplied as oracles; the
embedding records every engine call and every user-visible emission so
that ordering and frame properties can be stated.
-/

namespace Nsfp

/-- Logical commands recognized by the input decoder; `none` means the poll
produced no command (no byte available, or an ignored byte). -/
inductive LogicalCommand where
  | none
  | quit
  | togglePause
  | nextTrack
  | previousTrack
  deriving DecidableEq, Repr

/-- One poll of the input decoder, embedding main.cc lines 151-181.
`b` is the result of the first non-blocking one-byte read (`Option.none`
when `read` returned no byte); `r1` and `r2` are the results of the two
follow-up reads performed when `b` is ESC (0x1B).  The branch structure
mirrors the source: the `else` branch that stops the loop (`running =
false`, i.e. `quit`) is taken exactly when the source condition
`n1 == 1 && n2 == 1 && seq[0] == '['` fails; when that condition holds but
`seq[1]` is neither `C` nor `D` the source falls through doing nothing. -/
def decode (b r1 r2 : Option Char) : LogicalCommand :=
  match b with
  | Option.none => LogicalCommand.none
  | Option.some ch =>
    if ch = 'q' then LogicalCommand.quit
    else if ch = ' ' then LogicalCommand.togglePause
    else if ch = '\x1b' then
      match r1, r2 with
      | Option.some c1, Option.some c2 =>
        if c1 = '[' then
          if c2 = 'C' then LogicalCommand.nextTrack
          else if c2 = 'D' then LogicalCommand.previousTrack
          else LogicalCommand.none
        else LogicalCommand.quit
      | _, _ => LogicalCommand.quit
    else LogicalCommand.none

/-- The three read results of one poll of standard input. -/
structure Poll where
  b : Option Char
  r1 : Option Char
  r2 : Option Char
  deriving DecidableEq, Repr

/-- The mutable loop state of main.cc: `track` (line 111, after the initial
range check), `playing` and `running` (lines 144-145). -/
structure Session where
  track : Int
  playing : Bool
  running : Bool
  deriving DecidableEq, Repr

/-- Per-run constants: the engine's `track_count()` and the `--single`
flag (main.cc line 112). -/
structure Config where
  track_count : Int
  single : Bool
  deriving DecidableEq, Repr

/-- Calls made to the external `Player` engine, in order. -/
inductive EngineCall where
  | pause (wasPlaying : Bool)
  | startTrack (idx : Int)
  | trackEnded
  deriving DecidableEq, Repr

/-- Outcome of a piece of the loop body: either the process called
`exit code`, or control continues with the new session state. -/
inductive ProcRes where
  | exit (code : Int)
  | ok (s : Session)
  deriving DecidableEq, Repr

/-- Result of running a fragment of the loop body: control outcome, the
engine calls it made, and counts of user-visible emissions.  `errors`
counts `Player error` reports, `announcements` counts track-announcement
blocks printed by `start_track`, `notices` counts the `[Paused]` /
`[Playing]` state notices. -/
structure IterOut where
  res : ProcRes
  calls : List EngineCall
  errors : Nat
  announcements : Nat
  notices : Nat
  deriving DecidableEq, Repr

/-- The `start_track` wrapper of main.cc lines 50-85, at the point where the
session's `track` field is already set to the target index.  `ok` is the
engine oracle: `ok i = true` iff `player->start_track(i, _)` succeeds.  On
failure the wrapper prints one `Player error` line and calls `exit(1)`; on
success it prints one track-announcement block.  (The `dry_run` argument is
forwarded to the engine and does not affect the modelled behaviour.) -/
def startPhase (ok : Int → Bool) (s : Session) : IterOut :=
  if ok s.track then
    { res := ProcRes.ok s, calls := [EngineCall.startTrack s.track],
      errors := 0, announcements := 1, notices := 0 }
  else
    { res := ProcRes.exit 1, calls := [EngineCall.startTrack s.track],
      errors := 1, announcements := 0, notices := 0 }

/-- The command-handling part of the loop body, main.cc lines 152-182, with
the decoded command made explicit.  `quit` only clears `running`;
`togglePause` calls `player->pause` with the current `playing` value,
prints one state notice and flips `playing`; `nextTrack` / `previousTrack`
move and restart only inside the valid range. -/
def applyCommand (cfg : Config) (ok : Int → Bool) (s : Session) :
    LogicalCommand → IterOut
  | LogicalCommand.none =>
    { res := ProcRes.ok s, calls := [], errors := 0, announcements := 0,
      notices := 0 }
  | LogicalCommand.quit =>
    { res := ProcRes.ok { s with running := false }, calls := [],
      errors := 0, announcements := 0, notices := 0 }
  | LogicalCommand.togglePause =>
    { res := ProcRes.ok { s with playing := !s.playing },
      calls := [EngineCall.pause s.playing], errors := 0,
      announcements := 0, notices := 1 }
  | LogicalCommand.nextTrack =>
    if s.track < cfg.track_count - 1 then
      startPhase ok { s with track := s.track + 1 }
    else
      { res := ProcRes.ok s, calls := [], errors := 0, announcements := 0,
        notices := 0 }
  | LogicalCommand.previousTrack =>
    if s.track > 0 then
      startPhase ok { s with track := s.track - 1 }
    else
      { res := ProcRes.ok s, calls := [], errors := 0, announcements := 0,
        notices := 0 }

/-- The end-of-track poll of main.cc lines 186-193.  `player->track_ended()`
is always called (its answer is the oracle `ended`); when it reports true,
either the loop is stopped (single mode, or last track) or the next track
is started. -/
def trackEndStep (cfg : Config) (ok : Int → Bool) (ended : Bool)
    (s : Session) : IterOut :=
  if ended then
    if cfg.single = true ∨ s.track = cfg.track_count - 1 then
      { res := ProcRes.ok { s with running := false },
        calls := [EngineCall.trackEnded], errors := 0, announcements := 0,
        notices := 0 }
    else
      let o := startPhase ok { s with track := s.track + 1 }
      { o with calls := EngineCall.trackEnded :: o.calls }
  else
    { res := ProcRes.ok s, calls := [EngineCall.trackEnded], errors := 0,
      announcements := 0, notices := 0 }

/-- Sequencing of two loop-body fragments: if the first one exited the
process, the second never runs; otherwise calls and emissions accumulate. -/
def seqOut (a : IterOut) (f : Session → IterOut) : IterOut :=
  match a.res with
  | ProcRes.exit _ => a
  | ProcRes.ok s =>
    { res := (f s).res, calls := a.calls ++ (f s).calls,
      errors := a.errors + (f s).errors,
      announcements := a.announcements + (f s).announcements,
      notices := a.notices + (f s).notices }

/-- One full iteration of the `while (running)` body, main.cc lines 150-194:
poll and handle input, then (the `SDL_Delay(100)` yield, which has no
modelled effect,) then poll the engine for end of track. -/
def loopIter (cfg : Config) (ok : Int → Bool) (p : Poll) (ended : Bool)
    (s : Session) : IterOut :=
  seqOut (applyCommand cfg ok s (decode p.b p.r1 p.r2))
    (trackEndStep cfg ok ended)

/-- The `while (running)` loop, main.cc lines 150-194, driven by a finite
oracle stream of (input poll, `track_ended` answer) pairs, one per
iteration.  The `running` flag is observed at the top of each iteration. -/
def runLoop (cfg : Config) (ok : Int → Bool) :
    List (Poll × Bool) → Session → ProcRes
  | [], s => ProcRes.ok s
  | (p, e) :: rest, s =>
    if s.running then
      match (loopIter cfg ok p e s).res with
      | ProcRes.exit c => ProcRes.exit c
      | ProcRes.ok s' => runLoop cfg ok rest s'
    else
      ProcRes.ok s

/-- User-visible startup output tokens.  `helpText` stands for the one help
string `options.help(\x7b""\x7d)` printed by main.cc line 105 (the same
expression on both the `--help` path and the missing-input path). -/
inductive CliOut where
  | helpText
  deriving DecidableEq, Repr

/-- Outcome of the startup argument check: what was printed, an early exit
code if `main` returned before reaching `SDL_Init`, and whether control
reached the audio-subsystem initialization (`SDL_Init`, which precedes all
engine initialization). -/
structure StartupResult where
  output : List CliOut
  exitCode : Option Int
  reachedAudioInit : Bool
  deriving DecidableEq, Repr

/-- The help / missing-input check of main.cc lines 104-107: if `--help` was
given or the positional INPUT argument is absent, print the help text and
return 0 for help, 1 otherwise; only past this check does control flow on
to `SDL_Init` (line 114) and the engine. -/
def startupCheck (hasHelp hasInput : Bool) : StartupResult :=
  if hasHelp = true ∨ hasInput = false then
    { output := [CliOut.helpText],
      exitCode := Option.some (if hasHelp = true then 0 else 1),
      reachedAudioInit := false }
  else
    { output := [], exitCode := Option.none, reachedAudioInit := true }

/-! ## Helper lemmas -/

/-- After an ESC byte, the decoder is the arrow-sequence analysis of the two
follow-up reads. -/
theorem decode_esc_eq (r1 r2 : Option Char) :
    decode (Option.some '\x1b') r1 r2 =
      match r1, r2 with
      | Option.some c1, Option.some c2 =>
        if c1 = '[' then
          if c2 = 'C' then LogicalCommand.nextTrack
          else if c2 = 'D' then LogicalCommand.previousTrack
          else LogicalCommand.none
        else LogicalCommand.quit
      | _, _ => LogicalCommand.quit := by
  cases r1 <;> cases r2 <;> rfl

/-- `start_track` always makes exactly one engine call, on the target
index. -/
theorem startPhase_calls (ok : Int → Bool) (s : Session) :
    (startPhase ok s).calls = [EngineCall.startTrack s.track] := by
  unfold startPhase
  split <;> rfl

/-- A successful `start_track` leaves the session state unchanged (the state
was already updated before the call, as in the source). -/
theorem startPhase_res_ok {ok : Int → Bool} {s s' : Session}
    (h : (startPhase ok s).res = ProcRes.ok s') : s' = s := by
  unfold startPhase at h
  split at h <;> simp_all

/-- Successful `start_track`: one engine call, one announcement, no error. -/
theorem startPhase_succ {ok : Int → Bool} {s : Session}
    (h : ok s.track = true) :
    startPhase ok s =
      { res := ProcRes.ok s, calls := [EngineCall.startTrack s.track],
        errors := 0, announcements := 1, notices := 0 } := by
  unfold startPhase
  rw [h]
  rfl

/-- Failing `start_track`: one engine call, one reported error, `exit(1)`. -/
theorem startPhase_fail {ok : Int → Bool} {s : Session}
    (h : ok s.track = false) :
    startPhase ok s =
      { res := ProcRes.exit 1, calls := [EngineCall.startTrack s.track],
        errors := 1, announcements := 0, notices := 0 } := by
  unfold startPhase
  rw [h]
  rfl

/-- `NextTrack` at or beyond the last track does nothing. -/
theorem applyCommand_next_noop {cfg : Config} (ok : Int → Bool) {s : Session}
    (h : ¬s.track < cfg.track_count - 1) :
    applyCommand cfg ok s LogicalCommand.nextTrack =
      { res := ProcRes.ok s, calls := [], errors := 0, announcements := 0,
        notices := 0 } := by
  unfold applyCommand
  rw [if_neg h]

/-- `PreviousTrack` at or below track zero does nothing. -/
theorem applyCommand_prev_noop {cfg : Config} (ok : Int → Bool) {s : Session}
    (h : ¬s.track > 0) :
    applyCommand cfg ok s LogicalCommand.previousTrack =
      { res := ProcRes.ok s, calls := [], errors := 0, announcements := 0,
        notices := 0 } := by
  unfold applyCommand
  rw [if_neg h]

/-- Command handling keeps `track` inside `[0, track_count)`. -/
theorem applyCommand_inv {cfg : Config} {ok : Int → Bool} {s s' : Session}
    {cmd : LogicalCommand}
    (h0 : 0 ≤ s.track) (h1 : s.track < cfg.track_count)
    (h : (applyCommand cfg ok s cmd).res = ProcRes.ok s') :
    0 ≤ s'.track ∧ s'.track < cfg.track_count := by
  cases cmd with
  | none =>
    simp only [applyCommand] at h
    cases h
    exact ⟨h0, h1⟩
  | quit =>
    simp only [applyCommand] at h
    cases h
    exact ⟨h0, h1⟩
  | togglePause =>
    simp only [applyCommand] at h
    cases h
    exact ⟨h0, h1⟩
  | nextTrack =>
    simp only [applyCommand] at h
    split at h
    next hlt =>
      cases startPhase_res_ok h
      constructor <;> simp <;> omega
    next =>
      cases h
      exact ⟨h0, h1⟩
  | previousTrack =>
    simp only [applyCommand] at h
    split at h
    next hgt =>
      cases startPhase_res_ok h
      constructor <;> simp <;> omega
    next =>
      cases h
      exact ⟨h0, h1⟩

/-- The end-of-track reaction keeps `track` inside `[0, track_count)`. -/
theorem trackEndStep_inv {cfg : Config} {ok : Int → Bool} {e : Bool}
    {s s' : Session}
    (h0 : 0 ≤ s.track) (h1 : s.track < cfg.track_count)
    (h : (trackEndStep cfg ok e s).res = ProcRes.ok s') :
    0 ≤ s'.track ∧ s'.track < cfg.track_count := by
  unfold trackEndStep at h
  split at h
  · split at h
    next =>
      cases h
      exact ⟨h0, h1⟩
    next hne =>
      have hlast : s.track ≠ cfg.track_count - 1 := fun hc => hne (Or.inr hc)
      simp only at h
      cases startPhase_res_ok h
      constructor <;> simp <;> omega
  · cases h
    exact ⟨h0, h1⟩

/-- The engine is always asked `track_ended()` in the end-of-track step. -/
theorem trackEndStep_polls {cfg : Config} (ok : Int → Bool) (e : Bool)
    (s : Session) :
    EngineCall.trackEnded ∈ (trackEndStep cfg ok e s).calls := by
  unfold trackEndStep
  split
  · split
    · exact List.mem_singleton.mpr rfl
    · exact List.mem_cons_self _ _
  · exact List.mem_singleton.mpr rfl

/-- If a sequenced fragment reports continuation, both halves did. -/
theorem seqOut_res_ok {a : IterOut} {f : Session → IterOut} {s' : Session}
    (h : (seqOut a f).res = ProcRes.ok s') :
    ∃ s1, a.res = ProcRes.ok s1 ∧ (f s1).res = ProcRes.ok s' := by
  unfold seqOut at h
  split at h
  next heq =>
    rw [heq] at h
    cases h
  next s1 heq =>
    exact ⟨s1, heq, h⟩

/-- Once `running` is false, the loop makes no further iterations and no
further calls: it exits at the top-of-loop check. -/
theorem runLoop_not_running {cfg : Config} {ok : Int → Bool}
    (inputs : List (Poll × Bool)) {s : Session} (h : s.running = false) :
    runLoop cfg ok inputs s = ProcRes.ok s := by
  cases inputs with
  | nil => rfl
  | cons pe rest =>
    obtain ⟨p, e⟩ := pe
    simp [runLoop, h]

/-- One whole loop iteration keeps `track` inside `[0, track_count)`. -/
theorem loopIter_inv {cfg : Config} {ok : Int → Bool} {p : Poll} {e : Bool}
    {s s' : Session}
    (h0 : 0 ≤ s.track) (h1 : s.track < cfg.track_count)
    (h : (loopIter cfg ok p e s).res = ProcRes.ok s') :
    0 ≤ s'.track ∧ s'.track < cfg.track_count := by
  obtain ⟨s1, ha, hf⟩ := seqOut_res_ok h
  obtain ⟨g0, g1⟩ := applyCommand_inv h0 h1 ha
  exact trackEndStep_inv g0 g1 hf

/-- The loop, run on any oracle stream, keeps `track` inside
`[0, track_count)` whenever it finishes without an `exit`. -/
theorem runLoop_inv {cfg : Config} {ok : Int → Bool} :
    ∀ (inputs : List (Poll × Bool)) (s s' : Session), 0 ≤ s.track →
      s.track < cfg.track_count → runLoop cfg ok inputs s = ProcRes.ok s' →
      0 ≤ s'.track ∧ s'.track < cfg.track_count := by
  intro inputs
  induction inputs with
  | nil =>
    intro s s' h0 h1 h
    cases h
    exact ⟨h0, h1⟩
  | cons pe rest ih =>
    intro s s' h0 h1 h
    obtain ⟨p, e⟩ := pe
    unfold runLoop at h
    split at h
    · split at h
      next => cases h
      next s1 hres =>
        obtain ⟨g0, g1⟩ := loopIter_inv h0 h1 hres
        exact ih s1 s' g0 g1 h
    · cases h
      exact ⟨h0, h1⟩

/-- A failing `start_track` call inside `startPhase` exits with status 1 and
reports the error. -/
theorem startPhase_start_fail {ok : Int → Bool} {s : Session} {idx : Int}
    (hmem : EngineCall.startTrack idx ∈ (startPhase ok s).calls)
    (hfail : ok idx = false) :
    (startPhase ok s).res = ProcRes.exit 1 ∧
    1 ≤ (startPhase ok s).errors := by
  rw [startPhase_calls] at hmem
  simp only [List.mem_singleton, EngineCall.startTrack.injEq] at hmem
  subst hmem
  rw [startPhase_fail hfail]
  exact ⟨rfl, le_refl 1⟩

/-- Unfolding of the `NextTrack` case of command handling. -/
theorem applyCommand_next_eq (cfg : Config) (ok : Int → Bool) (s : Session) :
    applyCommand cfg ok s LogicalCommand.nextTrack =
      if s.track < cfg.track_count - 1 then
        startPhase ok { s with track := s.track + 1 }
      else
        { res := ProcRes.ok s, calls := [], errors := 0, announcements := 0,
          notices := 0 } := rfl

/-- Unfolding of the `PreviousTrack` case of command handling. -/
theorem applyCommand_prev_eq (cfg : Config) (ok : Int → Bool) (s : Session) :
    applyCommand cfg ok s LogicalCommand.previousTrack =
      if s.track > 0 then
        startPhase ok { s with track := s.track - 1 }
      else
        { res := ProcRes.ok s, calls := [], errors := 0, announcements := 0,
          notices := 0 } := rfl

/-- Unfolding of the end-of-track step when the track did not end. -/
theorem trackEndStep_false_eq (cfg : Config) (ok : Int → Bool) (s : Session) :
    trackEndStep cfg ok false s =
      { res := ProcRes.ok s, calls := [EngineCall.trackEnded], errors := 0,
        announcements := 0, notices := 0 } := rfl

/-- Unfolding of the end-of-track step when the track ended. -/
theorem trackEndStep_true_eq (cfg : Config) (ok : Int → Bool) (s : Session) :
    trackEndStep cfg ok true s =
      if cfg.single = true ∨ s.track = cfg.track_count - 1 then
        { res := ProcRes.ok { s with running := false },
          calls := [EngineCall.trackEnded], errors := 0, announcements := 0,
          notices := 0 }
      else
        { res := (startPhase ok { s with track := s.track + 1 }).res,
          calls := EngineCall.trackEnded ::
            (startPhase ok { s with track := s.track + 1 }).calls,
          errors := (startPhase ok { s with track := s.track + 1 }).errors,
          announcements :=
            (startPhase ok { s with track := s.track + 1 }).announcements,
          notices :=
            (startPhase ok { s with track := s.track + 1 }).notices } := rfl

/-- Unfolding of sequencing when the first fragment already exited. -/
theorem seqOut_exit {a : IterOut} (f : Session → IterOut) {c : Int}
    (heq : a.res = ProcRes.exit c) : seqOut a f = a := by
  unfold seqOut
  rw [heq]

/-- Unfolding of sequencing when the first fragment continued. -/
theorem seqOut_ok_eq {a : IterOut} (f : Session → IterOut) {s1 : Session}
    (heq : a.res = ProcRes.ok s1) :
    seqOut a f =
      { res := (f s1).res, calls := a.calls ++ (f s1).calls,
        errors := a.errors + (f s1).errors,
        announcements := a.announcements + (f s1).announcements,
        notices := a.notices + (f s1).notices } := by
  unfold seqOut
  rw [heq]

/-- A failing `start_track` during command handling exits with status 1. -/
theorem applyCommand_start_fail {cfg : Config} {ok : Int → Bool}
    {s : Session} {cmd : LogicalCommand} {idx : Int}
    (hmem : EngineCall.startTrack idx ∈ (applyCommand cfg ok s cmd).calls)
    (hfail : ok idx = false) :
    (applyCommand cfg ok s cmd).res = ProcRes.exit 1 ∧
    1 ≤ (applyCommand cfg ok s cmd).errors := by
  cases cmd with
  | none => cases hmem
  | quit => cases hmem
  | togglePause => simp [applyCommand] at hmem
  | nextTrack =>
    rw [applyCommand_next_eq] at hmem ⊢
    by_cases hlt : s.track < cfg.track_count - 1
    · rw [if_pos hlt] at hmem ⊢
      exact startPhase_start_fail hmem hfail
    · rw [if_neg hlt] at hmem
      cases hmem
  | previousTrack =>
    rw [applyCommand_prev_eq] at hmem ⊢
    by_cases hgt : s.track > 0
    · rw [if_pos hgt] at hmem ⊢
      exact startPhase_start_fail hmem hfail
    · rw [if_neg hgt] at hmem
      cases hmem

/-- A failing `start_track` during the end-of-track step exits with
status 1. -/
theorem trackEndStep_start_fail {cfg : Config} {ok : Int → Bool} {e : Bool}
    {s : Session} {idx : Int}
    (hmem : EngineCall.startTrack idx ∈ (trackEndStep cfg ok e s).calls)
    (hfail : ok idx = false) :
    (trackEndStep cfg ok e s).res = ProcRes.exit 1 ∧
    1 ≤ (trackEndStep cfg ok e s).errors := by
  cases e with
  | false =>
    rw [trackEndStep_false_eq] at hmem
    simp at hmem
  | true =>
    rw [trackEndStep_true_eq] at hmem ⊢
    by_cases hstop : cfg.single = true ∨ s.track = cfg.track_count - 1
    · rw [if_pos hstop] at hmem
      simp at hmem
    · rw [if_neg hstop] at hmem ⊢
      rcases List.mem_cons.mp hmem with h | h
      · cases h
      · have hsp := startPhase_start_fail h hfail
        exact ⟨hsp.1, hsp.2⟩

/-- A failing `start_track` anywhere in a sequenced pair of fragments exits
with status 1, provided each fragment has that property. -/
theorem seqOut_start_fail {a : IterOut} {f : Session → IterOut} {idx : Int}
    (ha : EngineCall.startTrack idx ∈ a.calls →
      a.res = ProcRes.exit 1 ∧ 1 ≤ a.errors)
    (hf : ∀ s1, EngineCall.startTrack idx ∈ (f s1).calls →
      (f s1).res = ProcRes.exit 1 ∧ 1 ≤ (f s1).errors)
    (hmem : EngineCall.startTrack idx ∈ (seqOut a f).calls) :
    (seqOut a f).res = ProcRes.exit 1 ∧ 1 ≤ (seqOut a f).errors := by
  cases ha2 : a.res with
  | exit c =>
    rw [seqOut_exit f ha2] at hmem ⊢
    exact ha hmem
  | ok s1 =>
    rw [seqOut_ok_eq f ha2] at hmem ⊢
    rcases List.mem_append.mp hmem with h | h
    · rcases ha h with ⟨hres, _⟩
      rw [ha2] at hres
      cases hres
    · rcases hf s1 h with ⟨hres, herr⟩
      refine ⟨hres, ?_⟩
      show 1 ≤ a.errors + (f s1).errors
      omega

/-! ## Claim theorems -/

/-- Claim C1, counterexample: the claim says every non-arrow combination
after ESC yields `Quit`, naming `[0x1B, bracket, A]` explicitly; but on
that very input the decoder returns `none` (the sequence is silently
ignored), because the source only stops the loop when the condition
`n1 == 1 && n2 == 1 && seq[0] == '['` fails. -/
theorem esc_unrecognized_third_byte_is_ignored :
    decode (Option.some '\x1b') (Option.some '[') (Option.some 'A') =
      LogicalCommand.none ∧
    LogicalCommand.none ≠ LogicalCommand.quit := by decide

/-- Claim C1, amended: after reading ESC, the decoder returns `Quit`
whenever the follow-up reads do not both succeed with second byte a
bracket (missing bytes, or an unrecognized second byte); but when both
reads succeed, the second byte is a bracket and the third byte is neither
C nor D, it returns `none` and the session continues. -/
theorem esc_decode_amended (r1 r2 : Option Char) :
    (r1 ≠ Option.some '[' ∨ r2 = Option.none →
      decode (Option.some '\x1b') r1 r2 = LogicalCommand.quit) ∧
    (∀ c : Char, c ≠ 'C' → c ≠ 'D' →
      decode (Option.some '\x1b') (Option.some '[') (Option.some c) =
        LogicalCommand.none) := by
  constructor
  · intro h
    rw [decode_esc_eq]
    cases r1 with
    | none => cases r2 <;> rfl
    | some c1 =>
      cases r2 with
      | none => rfl
      | some c2 =>
        have hc1 : ¬c1 = '[' := by
          rcases h with h | h
          · intro he
            exact h (by rw [he])
          · exact absurd h (by simp)
        simp only [if_neg hc1]
  · intro c hC hD
    rw [decode_esc_eq]
    simp [hC, hD]

/-- Claim C1, amended, witness at the inputs `[0x1B, x]` (quit) and
`[0x1B, bracket, A]` (ignored). -/
theorem esc_decode_amended_witness :
    decode (Option.some '\x1b') (Option.some 'x') (Option.some 'C') =
      LogicalCommand.quit ∧
    decode (Option.some '\x1b') (Option.some '[') (Option.some 'A') =
      LogicalCommand.none :=
  ⟨(esc_decode_amended (Option.some 'x') (Option.some 'C')).1
      (Or.inl (by decide)),
    (esc_decode_amended (Option.some '[') (Option.some 'A')).2 'A'
      (by decide) (by decide)⟩

/-- Claim C2, counterexample: in the concrete session where the poll reads
the quit byte, the command decodes to `Quit` and applying it makes no
engine call, yet the very same loop iteration still invokes the engine
operation `track_ended` afterwards — so it is not true that no engine
operation is invoked after `Quit` is applied and before the session
ends. -/
theorem quit_iteration_still_polls_engine :
    decode (Option.some 'q') Option.none Option.none = LogicalCommand.quit ∧
    (applyCommand ⟨3, false⟩ (fun _ => true) ⟨0, true, true⟩
        LogicalCommand.quit).calls = [] ∧
    (loopIter ⟨3, false⟩ (fun _ => true)
        ⟨Option.some 'q', Option.none, Option.none⟩ false
        ⟨0, true, true⟩).calls = [EngineCall.trackEnded] ∧
    [EngineCall.trackEnded] ≠ ([] : List EngineCall) := by decide

/-- Claim C2, amended: applying `Quit` sets `is_running` to false, leaves
the rest of the state unchanged, and itself performs no engine call and no
output; however the loop iteration in which `Quit` was decoded still polls
`track_ended` once before the loop condition observes `is_running`, and
once `is_running` is false no further iteration (hence no further engine
call) occurs. -/
theorem quit_applied (cfg : Config) (ok : Int → Bool) (s : Session)
    (p : Poll) (ended : Bool) :
    applyCommand cfg ok s LogicalCommand.quit =
      { res := ProcRes.ok { s with running := false }, calls := [],
        errors := 0, announcements := 0, notices := 0 } ∧
    (decode p.b p.r1 p.r2 = LogicalCommand.quit →
      EngineCall.trackEnded ∈ (loopIter cfg ok p ended s).calls) ∧
    (∀ inputs, runLoop cfg ok inputs { s with running := false } =
      ProcRes.ok { s with running := false }) := by
  refine ⟨rfl, ?_, fun inputs => runLoop_not_running inputs rfl⟩
  intro hd
  unfold loopIter
  rw [hd, seqOut_ok_eq (trackEndStep cfg ok ended) rfl]
  exact List.mem_append.mpr (Or.inr (trackEndStep_polls ok ended _))

/-- Claim C2, amended, witness in a concrete session. -/
theorem quit_applied_witness :
    applyCommand ⟨3, false⟩ (fun _ => true) ⟨0, true, true⟩
        LogicalCommand.quit =
      { res := ProcRes.ok ⟨0, true, false⟩, calls := [], errors := 0,
        announcements := 0, notices := 0 } ∧
    EngineCall.trackEnded ∈
      (loopIter ⟨3, false⟩ (fun _ => true)
        ⟨Option.some 'q', Option.none, Option.none⟩ false
        ⟨0, true, true⟩).calls ∧
    runLoop ⟨3, false⟩ (fun _ => true)
        [(⟨Option.some 'q', Option.none, Option.none⟩, false)]
        ⟨0, true, false⟩ =
      ProcRes.ok ⟨0, true, false⟩ :=
  have T := quit_applied ⟨3, false⟩ (fun _ => true) ⟨0, true, true⟩
    ⟨Option.some 'q', Option.none, Option.none⟩ false
  ⟨T.1, T.2.1 (by decide),
    T.2.2 [(⟨Option.some 'q', Option.none, Option.none⟩, false)]⟩

/-- Claim C3, counterexample: the claim says a successful second read equal
to D yields `PreviousTrack` with no condition on the first byte; but on
`[0x1B, x, D]` the decoder returns `Quit` (the source also requires the
first of the two bytes to be a bracket). -/
theorem left_arrow_requires_bracket :
    decode (Option.some '\x1b') (Option.some 'x') (Option.some 'D') =
      LogicalCommand.quit ∧
    LogicalCommand.quit ≠ LogicalCommand.previousTrack := by decide

/-- Claim C3, amended: when ESC is followed by two successfully read bytes,
the decoder returns `NextTrack` on bracket-then-C and `PreviousTrack` on
bracket-then-D; when the first of the two bytes is not a bracket the
decoder returns `Quit` even if the second is D. -/
theorem arrow_decode (c1 : Char) :
    decode (Option.some '\x1b') (Option.some '[') (Option.some 'C') =
      LogicalCommand.nextTrack ∧
    decode (Option.some '\x1b') (Option.some '[') (Option.some 'D') =
      LogicalCommand.previousTrack ∧
    (c1 ≠ '[' →
      decode (Option.some '\x1b') (Option.some c1) (Option.some 'D') =
        LogicalCommand.quit) := by
  refine ⟨by decide, by decide, ?_⟩
  intro h
  rw [decode_esc_eq]
  simp only [if_neg h]

/-- Claim C3, amended, witness: the non-bracket first byte x. -/
theorem arrow_decode_witness :
    decode (Option.some '\x1b') (Option.some 'x') (Option.some 'D') =
      LogicalCommand.quit :=
  (arrow_decode 'x').2.2 (by decide)

/-- Claim C4: starting from a session whose track index passed the initial
range check, every run of the loop — any sequence of decoded commands and
natural track completions — ends with `current_track` still in
`[0, track_count)`; and a move attempt at either boundary is a no-op, not
an error. -/
theorem current_track_invariant (cfg : Config) (ok : Int → Bool)
    (inputs : List (Poll × Bool)) (s s' : Session)
    (h0 : 0 ≤ s.track) (h1 : s.track < cfg.track_count)
    (hrun : runLoop cfg ok inputs s = ProcRes.ok s') :
    (0 ≤ s'.track ∧ s'.track < cfg.track_count) ∧
    (s.track = cfg.track_count - 1 →
      applyCommand cfg ok s LogicalCommand.nextTrack =
        { res := ProcRes.ok s, calls := [], errors := 0, announcements := 0,
          notices := 0 }) ∧
    (s.track = 0 →
      applyCommand cfg ok s LogicalCommand.previousTrack =
        { res := ProcRes.ok s, calls := [], errors := 0, announcements := 0,
          notices := 0 }) := by
  refine ⟨runLoop_inv inputs s s' h0 h1 hrun, ?_, ?_⟩
  · intro h
    exact applyCommand_next_noop ok (by omega)
  · intro h
    exact applyCommand_prev_noop ok (by omega)

/-- Claim C4, witness: a one-track session, one toggle-pause iteration. -/
theorem current_track_invariant_witness :
    (0 ≤ ((⟨0, false, true⟩ : Session)).track ∧
      ((⟨0, false, true⟩ : Session)).track < 1) ∧
    applyCommand ⟨1, false⟩ (fun _ => true) ⟨0, true, true⟩
        LogicalCommand.nextTrack =
      { res := ProcRes.ok ⟨0, true, true⟩, calls := [], errors := 0,
        announcements := 0, notices := 0 } ∧
    applyCommand ⟨1, false⟩ (fun _ => true) ⟨0, true, true⟩
        LogicalCommand.previousTrack =
      { res := ProcRes.ok ⟨0, true, true⟩, calls := [], errors := 0,
        announcements := 0, notices := 0 } :=
  have T := current_track_invariant ⟨1, false⟩ (fun _ => true)
    [(⟨Option.some ' ', Option.none, Option.none⟩, false)]
    ⟨0, true, true⟩ ⟨0, false, true⟩ (by decide) (by decide) (by decide)
  ⟨T.1, T.2.1 (by decide), T.2.2 (by decide)⟩

/-- Claim C5: when the engine reports natural end of track, the controller
either stops the loop (`single_track_mode`, or last track: `is_running`
becomes false and the session makes no further iterations) or advances to
the next track and starts it, emitting exactly one announcement. -/
theorem track_end_transition (cfg : Config) (ok : Int → Bool) (s : Session) :
    (cfg.single = true ∨ s.track = cfg.track_count - 1 →
      trackEndStep cfg ok true s =
        { res := ProcRes.ok { s with running := false },
          calls := [EngineCall.trackEnded], errors := 0, announcements := 0,
          notices := 0 }) ∧
    (¬(cfg.single = true ∨ s.track = cfg.track_count - 1) →
      ok (s.track + 1) = true →
      trackEndStep cfg ok true s =
        { res := ProcRes.ok { s with track := s.track + 1 },
          calls := [EngineCall.trackEnded,
            EngineCall.startTrack (s.track + 1)],
          errors := 0, announcements := 1, notices := 0 }) ∧
    (∀ inputs, runLoop cfg ok inputs { s with running := false } =
      ProcRes.ok { s with running := false }) := by
  refine ⟨?_, ?_, fun inputs => runLoop_not_running inputs rfl⟩
  · intro h
    rw [trackEndStep_true_eq, if_pos h]
  · intro h hok
    rw [trackEndStep_true_eq, if_neg h,
      startPhase_succ (s := { s with track := s.track + 1 }) hok]

/-- Claim C5, witness: a two-track session, stop at the last track and
advance from the first. -/
theorem track_end_transition_witness :
    trackEndStep ⟨2, false⟩ (fun _ => true) true ⟨1, true, true⟩ =
      { res := ProcRes.ok ⟨1, true, false⟩,
        calls := [EngineCall.trackEnded], errors := 0, announcements := 0,
        notices := 0 } ∧
    trackEndStep ⟨2, false⟩ (fun _ => true) true ⟨0, true, true⟩ =
      { res := ProcRes.ok ⟨1, true, true⟩,
        calls := [EngineCall.trackEnded, EngineCall.startTrack 1],
        errors := 0, announcements := 1, notices := 0 } ∧
    runLoop ⟨2, false⟩ (fun _ => true) [] ⟨1, true, false⟩ =
      ProcRes.ok ⟨1, true, false⟩ :=
  ⟨(track_end_transition ⟨2, false⟩ (fun _ => true) ⟨1, true, true⟩).1
      (Or.inr (by decide)),
    (track_end_transition ⟨2, false⟩ (fun _ => true) ⟨0, true, true⟩).2.1
      (by decide) rfl,
    (track_end_transition ⟨2, false⟩ (fun _ => true) ⟨1, true, true⟩).2.2 []⟩

/-- Claim C6: toggling pause invokes the engine pause operation with the
pre-flip `is_playing` value and then flips `is_playing`, emitting one state
notice; applying it twice restores `is_playing` and emits exactly two
state notices. -/
theorem togglePause_involutive (cfg : Config) (ok : Int → Bool)
    (s : Session) :
    applyCommand cfg ok s LogicalCommand.togglePause =
      { res := ProcRes.ok { s with playing := !s.playing },
        calls := [EngineCall.pause s.playing], errors := 0,
        announcements := 0, notices := 1 } ∧
    applyCommand cfg ok { s with playing := !s.playing }
        LogicalCommand.togglePause =
      { res := ProcRes.ok s, calls := [EngineCall.pause (!s.playing)],
        errors := 0, announcements := 0, notices := 1 } ∧
    (applyCommand cfg ok s LogicalCommand.togglePause).notices +
      (applyCommand cfg ok { s with playing := !s.playing }
        LogicalCommand.togglePause).notices = 2 := by
  refine ⟨rfl, ?_, rfl⟩
  simp only [applyCommand, Bool.not_not]

/-- Claim C7: track navigation at the boundaries is a no-op — `NextTrack`
at the last track and `PreviousTrack` at track zero leave the whole
session state unchanged and make no engine call. -/
theorem nav_boundary_noop (cfg : Config) (ok : Int → Bool) (s : Session) :
    (s.track = cfg.track_count - 1 →
      applyCommand cfg ok s LogicalCommand.nextTrack =
        { res := ProcRes.ok s, calls := [], errors := 0, announcements := 0,
          notices := 0 }) ∧
    (s.track = 0 →
      applyCommand cfg ok s LogicalCommand.previousTrack =
        { res := ProcRes.ok s, calls := [], errors := 0, announcements := 0,
          notices := 0 }) := by
  constructor
  · intro h
    exact applyCommand_next_noop ok (by omega)
  · intro h
    exact applyCommand_prev_noop ok (by omega)

/-- Claim C7, witness: a one-track session is at both boundaries. -/
theorem nav_boundary_noop_witness :
    applyCommand ⟨1, true⟩ (fun _ => true) ⟨0, true, true⟩
        LogicalCommand.nextTrack =
      { res := ProcRes.ok ⟨0, true, true⟩, calls := [], errors := 0,
        announcements := 0, notices := 0 } ∧
    applyCommand ⟨1, true⟩ (fun _ => true) ⟨0, true, true⟩
        LogicalCommand.previousTrack =
      { res := ProcRes.ok ⟨0, true, true⟩, calls := [], errors := 0,
        announcements := 0, notices := 0 } :=
  have T := nav_boundary_noop ⟨1, true⟩ (fun _ => true) ⟨0, true, true⟩
  ⟨T.1 (by decide), T.2 (by decide)⟩

/-- Claim C8: whenever any `start_track` made during a loop iteration
fails, the iteration reports at least one error and ends the process with
exit status 1, and the loop performs no further iterations whatever input
would have followed; moreover the `start_track` wrapper itself (also used
for the initial start) makes exactly one engine call, reports one error
and exits with status 1 on failure — it is never retried. -/
theorem start_fail_fatal (cfg : Config) (ok : Int → Bool) (p : Poll)
    (ended : Bool) (s : Session) (rest : List (Poll × Bool)) (idx : Int)
    (hrun : s.running = true)
    (hmem : EngineCall.startTrack idx ∈ (loopIter cfg ok p ended s).calls)
    (hfail : ok idx = false) :
    (loopIter cfg ok p ended s).res = ProcRes.exit 1 ∧
    1 ≤ (loopIter cfg ok p ended s).errors ∧
    runLoop cfg ok ((p, ended) :: rest) s = ProcRes.exit 1 ∧
    (ok s.track = false →
      startPhase ok s =
        { res := ProcRes.exit 1, calls := [EngineCall.startTrack s.track],
          errors := 1, announcements := 0, notices := 0 }) := by
  have hiter : (loopIter cfg ok p ended s).res = ProcRes.exit 1 ∧
      1 ≤ (loopIter cfg ok p ended s).errors :=
    seqOut_start_fail (fun h => applyCommand_start_fail h hfail)
      (fun s1 h => trackEndStep_start_fail h hfail) hmem
  refine ⟨hiter.1, hiter.2, ?_, fun h => startPhase_fail h⟩
  show (if s.running = true then
      match (loopIter cfg ok p ended s).res with
      | ProcRes.exit c => ProcRes.exit c
      | ProcRes.ok s' => runLoop cfg ok rest s'
    else ProcRes.ok s) = ProcRes.exit 1
  rw [if_pos hrun, hiter.1]

/-- Claim C8, witness: an engine that refuses every start, with a
right-arrow command in a three-track session. -/
theorem start_fail_fatal_witness :
    (loopIter ⟨3, false⟩ (fun _ => false)
        ⟨Option.some '\x1b', Option.some '[', Option.some 'C'⟩ false
        ⟨0, true, true⟩).res = ProcRes.exit 1 ∧
    1 ≤ (loopIter ⟨3, false⟩ (fun _ => false)
        ⟨Option.some '\x1b', Option.some '[', Option.some 'C'⟩ false
        ⟨0, true, true⟩).errors ∧
    runLoop ⟨3, false⟩ (fun _ => false)
        [(⟨Option.some '\x1b', Option.some '[', Option.some 'C'⟩, false)]
        ⟨0, true, true⟩ = ProcRes.exit 1 ∧
    (((fun _ => false) : Int → Bool) 0 = false →
      startPhase (fun _ => false) ⟨0, true, true⟩ =
        { res := ProcRes.exit 1, calls := [EngineCall.startTrack 0],
          errors := 1, announcements := 0, notices := 0 }) :=
  start_fail_fatal ⟨3, false⟩ (fun _ => false)
    ⟨Option.some '\x1b', Option.some '[', Option.some 'C'⟩ false
    ⟨0, true, true⟩ [] 1 rfl (by decide) rfl

/-- Claim C9: a successful in-range `NextTrack` or `PreviousTrack` changes
only `current_track` and makes exactly the one engine call that restarts
playback on the new track; `is_playing` and `is_running` are untouched
(and `single_track_mode` lives in the immutable per-run configuration, so
it cannot change). -/
theorem nav_frame (cfg : Config) (ok : Int → Bool) (s : Session) :
    (s.track < cfg.track_count - 1 → ok (s.track + 1) = true →
      applyCommand cfg ok s LogicalCommand.nextTrack =
        { res := ProcRes.ok { s with track := s.track + 1 },
          calls := [EngineCall.startTrack (s.track + 1)], errors := 0,
          announcements := 1, notices := 0 }) ∧
    (0 < s.track → ok (s.track - 1) = true →
      applyCommand cfg ok s LogicalCommand.previousTrack =
        { res := ProcRes.ok { s with track := s.track - 1 },
          calls := [EngineCall.startTrack (s.track - 1)], errors := 0,
          announcements := 1, notices := 0 }) := by
  constructor
  · intro h hok
    rw [applyCommand_next_eq, if_pos h,
      startPhase_succ (s := { s with track := s.track + 1 }) hok]
  · intro h hok
    rw [applyCommand_prev_eq, if_pos h,
      startPhase_succ (s := { s with track := s.track - 1 }) hok]

/-- Claim C9, witness: both moves from the middle track of three. -/
theorem nav_frame_witness :
    applyCommand ⟨3, false⟩ (fun _ => true) ⟨1, true, true⟩
        LogicalCommand.nextTrack =
      { res := ProcRes.ok ⟨2, true, true⟩,
        calls := [EngineCall.startTrack 2], errors := 0, announcements := 1,
        notices := 0 } ∧
    applyCommand ⟨3, false⟩ (fun _ => true) ⟨1, true, true⟩
        LogicalCommand.previousTrack =
      { res := ProcRes.ok ⟨0, true, true⟩,
        calls := [EngineCall.startTrack 0], errors := 0, announcements := 1,
        notices := 0 } :=
  have T := nav_frame ⟨3, false⟩ (fun _ => true) ⟨1, true, true⟩
  ⟨T.1 (by decide) rfl, T.2 (by decide) rfl⟩

/-- Claim C10: with the positional INPUT argument absent and no `--help`
flag, the startup check prints exactly the help text — the same output as
the `--help` path — and returns exit code 1 without ever reaching the
audio-subsystem (and hence engine) initialization. -/
theorem missing_input_help_exit1 :
    startupCheck false false =
      { output := [CliOut.helpText], exitCode := Option.some 1,
        reachedAudioInit := false } ∧
    (startupCheck false false).output = (startupCheck true true).output := by
  decide

end Nsfp
